import Mathlib

/-!
# In-memory ingestion of firn (`polars/from_memory.go`)

A shallow embedding of `FromRecords`, `FromColumns` and `makeColumnValue`,
followed by the properties established for them.

Conventions of the embedding.

* A Go `map[string]V` is a list of key/value pairs (`GoMap V`).  The order of
  the list is the order in which a `range` statement visits the map, so a
  statement proved for every list holds for every visiting order.  A Go map
  never holds a key twice; theorems that need this say so (`GoMap.WF`).
* Machine integers are mathematical integers; a conversion to a 64-bit signed
  integer is written out as `toInt64`.
* Floating-point values are their IEEE 754 bit patterns.
* A pointer to the first element of an array together with a length is the
  array itself (a list) together with that length.  Taking the address of the
  first element of an empty slice is a run-time panic, and is modelled as
  `Except.error`.
-/

namespace Firn

/-! ## Host values -/

/-- The dynamic value held by a Go `any`.  The seven types `makeColumnValue`
switches on have a constructor each; `other id` stands for a value of any
other dynamic type (`uint8`, a struct, a slice, ...). -/
inductive HostValue where
  | nil
  | int64 (v : Int)
  | float64 (bits : Nat)
  | string (s : String)
  | bool (b : Bool)
  | int (v : Int)
  | int32 (v : Int)
  | float32 (bits : Nat)
  | other (id : Nat)
  deriving DecidableEq, Repr

/-- Dynamic types of interface values. -/
inductive GoType where
  | int64 | float64 | string | bool | int | int32 | float32
  | other (id : Nat)
  deriving DecidableEq, Repr

/-- The dynamic type of a host value; `nil` has none. -/
def HostValue.dynType : HostValue → Option GoType
  | .nil => none
  | .int64 _ => some .int64
  | .float64 _ => some .float64
  | .string _ => some .string
  | .bool _ => some .bool
  | .int _ => some .int
  | .int32 _ => some .int32
  | .float32 _ => some .float32
  | .other id => some (.other id)

/-- The types `makeColumnValue` recognises. -/
def supportedTypes : List GoType :=
  [.int64, .int, .int32, .float64, .float32, .string, .bool]

/-- Range of a Go `int64`, and of `int` on amd64 (the only build targets). -/
def IsInt64 (v : Int) : Prop := -(2 : Int) ^ 63 ≤ v ∧ v < (2 : Int) ^ 63

/-- Range of a Go `int32`. -/
def IsInt32 (v : Int) : Prop := -(2 : Int) ^ 31 ≤ v ∧ v < (2 : Int) ^ 31

instance (v : Int) : Decidable (IsInt64 v) := by unfold IsInt64; infer_instance

instance (v : Int) : Decidable (IsInt32 v) := by unfold IsInt32; infer_instance

/-- The conversion `C.int64_t(v)`: the value reduced to 64 bits, two's complement. -/
def toInt64 (v : Int) : Int := (v + (2 : Int) ^ 63) % (2 : Int) ^ 64 - (2 : Int) ^ 63

/-- The conversion `C.double(v)` of a `float32`, on bit patterns: the same
real number (or infinity) in binary64; a NaN keeps sign and payload and is
made quiet. -/
def float32ToFloat64 (b : Nat) : Nat :=
  let s := b / 2 ^ 31 % 2
  let e := b / 2 ^ 23 % 256
  let m := b % 2 ^ 23
  if e = 255 then
    if m = 0 then s * 2 ^ 63 + 2047 * 2 ^ 52
    else s * 2 ^ 63 + 2047 * 2 ^ 52 + (m * 2 ^ 29) % 2 ^ 51 + 2 ^ 51
  else if e = 0 then
    if m = 0 then s * 2 ^ 63
    else
      let k := (List.range 23).foldl (fun k i => if 2 ^ i ≤ m then i else k) 0
      s * 2 ^ 63 + (k + 874) * 2 ^ 52 + (m - 2 ^ k) * 2 ^ (52 - k)
  else s * 2 ^ 63 + (e + 896) * 2 ^ 52 + m * 2 ^ 29

/-! ## Wire structures (`firn.h`) -/

/-- A borrowed string: the bytes pointed to and their number. -/
structure RawStr where
  data : String := ""
  len : Nat := 0
  deriving DecidableEq, Repr

/-- Modelled from the spec: `makeRawStr` is defined outside the files at hand;
it hands the string over as it is, as a pointer to its bytes and a length. -/
def makeRawStr (s : String) : RawStr := { data := s, len := s.utf8ByteSize }

/-- The C struct `ColumnValue`; a field left out of a composite literal is zero. -/
structure ColumnValue where
  value_type : Nat := 0
  int_value : Int := 0
  float_value : Nat := 0
  string_value : RawStr := {}
  bool_value : Bool := false
  deriving DecidableEq, Repr

/-- The C struct `ColumnData`: `values` is the array `&cValues[0]` points into. -/
structure ColumnData where
  name : RawStr
  values : List ColumnValue
  len : Nat
  deriving DecidableEq, Repr

/-- The C struct `FromMemoryArgs`: `columns` is the array `&cColumns[0]` points into. -/
structure FromMemoryArgs where
  columns : List ColumnData
  column_count : Nat
  deriving DecidableEq, Repr

/-- The function `makeColumnValue` (from_memory.go, lines 135-185). -/
def makeColumnValue (value : HostValue) : ColumnValue :=
  match value with
  | .nil => { value_type := 4 }
  | .int64 v => { value_type := 0, int_value := toInt64 v }
  | .float64 v => { value_type := 1, float_value := v }
  | .string v => { value_type := 2, string_value := makeRawStr v }
  | .bool v => { value_type := 3, bool_value := v }
  | .int v => { value_type := 0, int_value := toInt64 v }
  | .int32 v => { value_type := 0, int_value := toInt64 v }
  | .float32 v => { value_type := 1, float_value := float32ToFloat64 v }
  | .other _ => { value_type := 4 }

/-! ## Go maps -/

/-- A Go `map[string]V`, listed in the order a `range` statement visits it. -/
abbrev GoMap (V : Type) := List (String × V)

/-- The keys of a map, in visiting order. -/
def GoMap.keys {V : Type} (m : GoMap V) : List String := m.map Prod.fst

/-- No key occurs twice: what every Go map satisfies. -/
def GoMap.WF {V : Type} (m : GoMap V) : Prop := m.keys.Nodup

instance {V : Type} (m : GoMap V) : Decidable (GoMap.WF m) := by
  unfold GoMap.WF; infer_instance

/-- The index expression `m[k]`: the value stored under `k`, the zero value
`zero` when there is none. -/
def GoMap.get {V : Type} (m : GoMap V) (zero : V) (k : String) : V :=
  match m with
  | [] => zero
  | (k', v) :: rest => if k' = k then v else GoMap.get rest zero k

/-- The assignment `m[k] = v`: replaces the value of an existing key, adds the
key otherwise. -/
def GoMap.set {V : Type} (m : GoMap V) (k : String) (v : V) : GoMap V :=
  match m with
  | [] => [(k, v)]
  | (k', v') :: rest => if k' = k then (k, v) :: rest else (k', v') :: GoMap.set rest k v

/-! ## The operation chain -/

/-- Modelled from the spec: the operation kinds of the chain (section 3,
"Operation"); the opcode constants are declared outside the files at hand. -/
inductive Opcode where
  | select | filter | withColumns | groupBy | sort | limit | join | concat
  | fromMemory | query | count
  deriving DecidableEq, Repr

/-- The constant `OpFromMemory`. -/
def OpFromMemory : Opcode := .fromMemory

/-- The struct `Operation` as `FromColumns` fills it.  `args` is the closure
that builds the payload when the chain is submitted.  The closure holds the
caller's map by reference, so what it reads is the content of that map at the
time it runs: the argument of `args`.  A run-time panic is `Except.error`. -/
structure Operation where
  opcode : Opcode
  args : GoMap (List HostValue) → Except String FromMemoryArgs

/-- The C struct `PolarsHandle`. -/
structure PolarsHandle where
  handle : Nat
  context_type : Nat
  deriving DecidableEq, Repr

/-- Modelled from the spec: the struct `DataFrame` is declared outside the
files at hand.  A chain is an engine handle, an ordered list of operations and
an optional deferred error (section 3, "Operation Chain"). -/
structure DataFrame where
  handle : PolarsHandle
  operations : List Operation
  err : Option String

/-- Modelled from the spec: `NewDataFrame` is defined outside the files at
hand; it gives the empty chain, with no operation and no deferred error. -/
def NewDataFrame : DataFrame :=
  { handle := { handle := 0, context_type := 0 }, operations := [], err := none }

/-- Modelled from the spec: `appendErrOp` is defined outside the files at
hand.  It records a deferred error: the operation list is left as it is, and
an error already recorded is kept (section 4.2: "the error is preserved, not
overwritten, by the first error encountered"). -/
def DataFrame.appendErrOp (df : DataFrame) (message : String) : DataFrame :=
  match df.err with
  | some _ => df
  | none => { df with err := some message }

/-- The verb `%d` of a format string, applied to the arguments in order;
every other character is copied.  `pending` says that the character before
was a `%` not yet written out. -/
def sprintfChars (pending : Bool) : List Char → List Nat → List Char
  | [], _ => if pending then "%!(NOVERB)".toList else []
  | c :: rest, args =>
    if pending then
      if c = 'd' then
        match args with
        | [] => "%!d(MISSING)".toList ++ sprintfChars false rest []
        | a :: args' => (Nat.repr a).toList ++ sprintfChars false rest args'
      else '%' :: c :: sprintfChars false rest args
    else if c = '%' then sprintfChars true rest args
    else c :: sprintfChars false rest args

/-- The function `fmt.Sprintf` for formats whose only verb is `%d`. -/
def sprintf (format : String) (args : List Nat) : String :=
  String.mk (sprintfChars false format.toList args)

/-- Modelled from the spec: `appendErrOpf` is defined outside the files at
hand; it is `appendErrOp` of the formatted message. -/
def DataFrame.appendErrOpf (df : DataFrame) (format : String) (args : List Nat) : DataFrame :=
  df.appendErrOp (sprintf format args)

/-- Whether a chain contains a FromMemory operation. -/
def DataFrame.hasFromMemory (df : DataFrame) : Bool :=
  df.operations.any (fun op => decide (op.opcode = OpFromMemory))

/-! ## `FromColumns` -/

/-- The loop of `FromColumns` (lines 69-81) from a given state: `rowCount`,
`columnNames` and the entries still to visit.  It stops with the two lengths
of the error message, or ends with the final `rowCount` and `columnNames`. -/
def FromColumns.verify :
    GoMap (List HostValue) → Nat → List String → Except (Nat × Nat) (Nat × List String)
  | [], rowCount, columnNames => .ok (rowCount, columnNames)
  | (colName, values) :: rest, rowCount, columnNames =>
    if rowCount = 0 then
      FromColumns.verify rest values.length (columnNames ++ [colName])
    else if values.length ≠ rowCount then
      .error (rowCount, values.length)
    else
      FromColumns.verify rest rowCount (columnNames ++ [colName])

/-- The loop over `columnNames` in the `args` closure (lines 91-106): one
`ColumnData` per name, read from the map as it is when the closure runs.
`&cValues[0]` panics when the column is empty. -/
def FromColumns.buildColumns (columns : GoMap (List HostValue)) :
    List String → Except String (List ColumnData)
  | [] => .ok []
  | colName :: rest =>
    let values := GoMap.get columns [] colName
    let cValues := values.map makeColumnValue
    if cValues.length = 0 then
      .error "index out of range [0] with length 0"
    else
      match FromColumns.buildColumns columns rest with
      | .error e => .error e
      | .ok cColumns =>
        .ok ({ name := makeRawStr colName, values := cValues, len := values.length } :: cColumns)

/-- The `args` closure of `FromColumns` (lines 85-112). -/
def FromColumns.args (columnNames : List String) (columns : GoMap (List HostValue)) :
    Except String FromMemoryArgs :=
  match FromColumns.buildColumns columns columnNames with
  | .error e => .error e
  | .ok cColumns =>
    if cColumns.length = 0 then
      .error "index out of range [0] with length 0"
    else
      .ok { columns := cColumns, column_count := columnNames.length }

/-- The function `FromColumns` (lines 64-119); the list order of `columns` is
the order in which the `range` loop visits the map. -/
def FromColumns (columns : GoMap (List HostValue)) : DataFrame :=
  if columns.length = 0 then
    NewDataFrame.appendErrOp "FromColumns: columns cannot be empty"
  else
    match FromColumns.verify columns 0 [] with
    | .error (rowCount, n) =>
      NewDataFrame.appendErrOpf
        "FromColumns: all columns must have same length (got %d and %d)" [rowCount, n]
    | .ok (_, columnNames) =>
      { handle := { handle := 0, context_type := 0 },
        operations := [{ opcode := OpFromMemory, args := FromColumns.args columnNames }],
        err := none }

/-! ## `FromRecords` -/

/-- Lines 37-40: an entry of `len(records)` nils for every column name. -/
def FromRecords.initColumns (columnNames : List String) (n : Nat) : GoMap (List HostValue) :=
  columnNames.foldl (fun columns colName => GoMap.set columns colName (List.replicate n .nil)) []

/-- Lines 43-45 for one record: `columns[colName][i] = record[colName]`. -/
def FromRecords.fillRow (columnNames : List String) (columns : GoMap (List HostValue))
    (i : Nat) (record : GoMap HostValue) : GoMap (List HostValue) :=
  columnNames.foldl
    (fun columns colName =>
      GoMap.set columns colName ((GoMap.get columns [] colName).set i (GoMap.get record .nil colName)))
    columns

/-- Lines 42-46: the rows are written in order, starting at index `i`. -/
def FromRecords.fill (columnNames : List String) :
    GoMap (List HostValue) → Nat → List (GoMap HostValue) → GoMap (List HostValue)
  | columns, _, [] => columns
  | columns, i, record :: rest =>
    FromRecords.fill columnNames (FromRecords.fillRow columnNames columns i record) (i + 1) rest

/-- The map `columns` that `FromRecords` builds (lines 36-46). -/
def FromRecords.columns (columnNames : List String) (records : List (GoMap HostValue)) :
    GoMap (List HostValue) :=
  FromRecords.fill columnNames (FromRecords.initColumns columnNames records.length) 0 records

/-- The function `FromRecords` (lines 21-49).  The list order of the first
record is the order in which line 28 visits it; `rangeOrder` gives the order
in which `FromColumns` then visits the map built here. -/
def FromRecords (rangeOrder : GoMap (List HostValue) → GoMap (List HostValue))
    (records : List (GoMap HostValue)) : DataFrame :=
  match records with
  | [] => NewDataFrame.appendErrOp "FromRecords: records cannot be empty"
  | first :: _ =>
    let columnNames := GoMap.keys first
    if columnNames.length = 0 then
      NewDataFrame.appendErrOp "FromRecords: first record is empty"
    else
      FromColumns (rangeOrder (FromRecords.columns columnNames records))

/-- The payloads a chain hands to the engine when it is submitted while the
map captured by its closures has the content `heap`. -/
def DataFrame.payloads (df : DataFrame) (heap : GoMap (List HostValue)) :
    List (Except String FromMemoryArgs) :=
  df.operations.map (fun op => op.args heap)

/-- The payload built when the chain returned by `FromRecords` is submitted:
the closure of its operation reads the map that `FromRecords` built and passed
to `FromColumns`, which no caller can reach.  `none` when the chain has no
operation. -/
def FromRecords.payload (rangeOrder : GoMap (List HostValue) → GoMap (List HostValue))
    (records : List (GoMap HostValue)) : Option (Except String FromMemoryArgs) :=
  match records with
  | [] => none
  | first :: _ =>
    ((FromRecords rangeOrder records).payloads
      (rangeOrder (FromRecords.columns (GoMap.keys first) records))).head?

/-- The column of the payload that record-oriented ingestion produces for the
name `c`: the converted values found under `c`, row by row. -/
def recordColumn (records : List (GoMap HostValue)) (c : String) : ColumnData :=
  { name := makeRawStr c,
    values := records.map (fun r => makeColumnValue (GoMap.get r .nil c)),
    len := records.length }

/-- The text of the length-mismatch error for the lengths `a` and `b`. -/
def mismatchMessage (a b : Nat) : String :=
  "FromColumns: all columns must have same length (got " ++ toString a ++ " and "
    ++ toString b ++ ")"

/-! ## Later builder calls -/

/-- Modelled from the spec: `appendOp` is defined outside the files at hand.
A builder call appends its operation to the chain; on a chain that carries a
deferred error it is a no-op (section 4.2: "once set, later method calls are
no-ops with respect to the underlying operation list"). -/
def DataFrame.appendOp (df : DataFrame) (op : Operation) : DataFrame :=
  match df.err with
  | some _ => df
  | none => { df with operations := df.operations ++ [op] }

/-- Modelled from the spec: what a builder call does to the chain (section 2:
"each appends an Operation or records a deferred error"). -/
inductive BuilderCall where
  | op (o : Operation)
  | fail (message : String)
  | failf (format : String) (args : List Nat)

/-- One builder call applied to a chain. -/
def DataFrame.call (df : DataFrame) : BuilderCall → DataFrame
  | .op o => df.appendOp o
  | .fail message => df.appendErrOp message
  | .failf format args => df.appendErrOpf format args

/-- A sequence of builder calls applied to a chain, in order. -/
def DataFrame.calls (df : DataFrame) (cs : List BuilderCall) : DataFrame :=
  cs.foldl DataFrame.call df

/-- The number a string of decimal digits stands for, continuing from `acc`. -/
def decimalValue (acc : Nat) (cs : List Char) : Nat :=
  cs.foldl (fun acc c => 10 * acc + (c.toNat - 48)) acc

/-! ## Formatting -/

theorem sprintf_mismatch (a b : Nat) :
    sprintf "FromColumns: all columns must have same length (got %d and %d)" [a, b]
      = mismatchMessage a b := by
  simp [sprintf, sprintfChars, String.ext_iff, mismatchMessage]
  rfl

/-! ## Lemmas on maps -/

theorem GoMap.get_set {V : Type} (m : GoMap V) (zero : V) (k k' : String) (v : V) :
    GoMap.get (GoMap.set m k v) zero k' = if k = k' then v else GoMap.get m zero k' := by
  induction m with
  | nil => simp [GoMap.set, GoMap.get]
  | cons e rest ih =>
    obtain ⟨k0, v0⟩ := e
    by_cases h0 : k0 = k
    · subst h0
      by_cases h1 : k0 = k' <;> simp [GoMap.set, GoMap.get, h1]
    · by_cases h1 : k0 = k'
      · subst h1
        have h2 : ¬ k = k0 := fun h => h0 h.symm
        simp [GoMap.set, GoMap.get, h0, h2]
      · simp [GoMap.set, GoMap.get, h0, h1, ih]

theorem GoMap.keys_set_of_mem {V : Type} (m : GoMap V) (k : String) (v : V)
    (h : k ∈ GoMap.keys m) : GoMap.keys (GoMap.set m k v) = GoMap.keys m := by
  induction m with
  | nil => simp [GoMap.keys] at h
  | cons e rest ih =>
    obtain ⟨k0, v0⟩ := e
    by_cases h0 : k0 = k
    · simp [GoMap.set, GoMap.keys, h0]
    · have hr : k ∈ GoMap.keys rest := by
        simp only [GoMap.keys, List.map_cons, List.mem_cons] at h
        rcases h with h | h
        · exact absurd h.symm h0
        · exact h
      have := ih hr
      simp only [GoMap.keys] at this
      simp [GoMap.set, GoMap.keys, h0, this]

theorem GoMap.keys_set_of_not_mem {V : Type} (m : GoMap V) (k : String) (v : V)
    (h : k ∉ GoMap.keys m) : GoMap.keys (GoMap.set m k v) = GoMap.keys m ++ [k] := by
  induction m with
  | nil => simp [GoMap.set, GoMap.keys]
  | cons e rest ih =>
    obtain ⟨k0, v0⟩ := e
    simp only [GoMap.keys, List.map_cons, List.mem_cons, not_or] at h
    have h0 : ¬ k0 = k := fun h1 => h.1 h1.symm
    have := ih (by simpa [GoMap.keys] using h.2)
    simp only [GoMap.keys] at this
    simp [GoMap.set, GoMap.keys, h0, this]

theorem GoMap.get_perm {V : Type} {m m' : GoMap V} (hp : List.Perm m m') (hwf : GoMap.WF m)
    (zero : V) (k : String) : GoMap.get m zero k = GoMap.get m' zero k := by
  induction hp with
  | nil => rfl
  | cons e _ ih =>
    obtain ⟨k0, v0⟩ := e
    have hwf' : GoMap.WF _ := (List.nodup_cons.1 hwf).2
    by_cases h0 : k0 = k
    · simp [GoMap.get, h0]
    · simp only [GoMap.get, h0, if_false]
      exact ih hwf'
  | swap e1 e2 l =>
    obtain ⟨k1, v1⟩ := e1
    obtain ⟨k2, v2⟩ := e2
    have hne : k2 ≠ k1 := by
      have := hwf
      simp only [GoMap.WF, GoMap.keys, List.map_cons, List.nodup_cons, List.mem_cons,
        not_or] at this
      exact this.1.1
    by_cases h1 : k1 = k
    · have h2 : ¬ k2 = k := fun h => hne (h.trans h1.symm)
      simp [GoMap.get, h1, h2]
    · by_cases h2 : k2 = k <;> simp [GoMap.get, h1, h2]
  | trans h1 _ ih1 ih2 =>
    have hwf2 : GoMap.WF _ := ((h1.map Prod.fst).nodup_iff).1 hwf
    exact (ih1 hwf).trans (ih2 hwf2)

/-! ## The map built by `FromRecords` -/

theorem take_succ_set {α : Type} (l : List α) (i : Nat) (v : α) (h : i < l.length) :
    (l.set i v).take (i + 1) = l.take i ++ [v] := by
  induction l generalizing i with
  | nil => simp at h
  | cons a t ih =>
    cases i with
    | zero => simp
    | succ j =>
      have hj : j < t.length := by simpa using h
      simp [ih j hj]

theorem initColumns_get_aux (n : Nat) (names : List String) (m : GoMap (List HostValue))
    (c : String) :
    GoMap.get (names.foldl
        (fun columns colName => GoMap.set columns colName (List.replicate n HostValue.nil)) m) [] c
      = if c ∈ names then List.replicate n HostValue.nil else GoMap.get m [] c := by
  induction names generalizing m with
  | nil => simp
  | cons a t ih =>
    rw [List.foldl_cons, ih, GoMap.get_set]
    by_cases h1 : c ∈ t
    · simp [h1]
    · by_cases h2 : a = c
      · simp [h2]
      · have h3 : ¬ c = a := fun h => h2 h.symm
        simp [h1, h2, h3]

theorem initColumns_keys_aux (n : Nat) (names : List String) (m : GoMap (List HostValue))
    (hnd : names.Nodup) (hdis : ∀ c ∈ names, c ∉ GoMap.keys m) :
    GoMap.keys (names.foldl
        (fun columns colName => GoMap.set columns colName (List.replicate n HostValue.nil)) m)
      = GoMap.keys m ++ names := by
  induction names generalizing m with
  | nil => simp
  | cons a t ih =>
    have ha : a ∉ GoMap.keys m := hdis a (List.mem_cons_self a t)
    have hnd' := List.nodup_cons.1 hnd
    rw [List.foldl_cons, ih _ hnd'.2]
    · rw [GoMap.keys_set_of_not_mem m a _ ha]
      simp
    · intro c hc
      rw [GoMap.keys_set_of_not_mem m a _ ha]
      simp only [List.mem_append, List.mem_singleton, not_or]
      refine ⟨hdis c (List.mem_cons_of_mem a hc), ?_⟩
      intro hca
      exact hnd'.1 (hca ▸ hc)

theorem initColumns_keys (n : Nat) (names : List String) (hnd : names.Nodup) :
    GoMap.keys (FromRecords.initColumns names n) = names := by
  have := initColumns_keys_aux n names [] hnd (by simp [GoMap.keys])
  simpa [FromRecords.initColumns, GoMap.keys] using this

theorem initColumns_get (n : Nat) (names : List String) (c : String) (hc : c ∈ names) :
    GoMap.get (FromRecords.initColumns names n) [] c = List.replicate n HostValue.nil := by
  have := initColumns_get_aux n names [] c
  simpa [FromRecords.initColumns, hc] using this

theorem fillRow_get (names : List String) (m : GoMap (List HostValue)) (i : Nat)
    (record : GoMap HostValue) (c : String) :
    GoMap.get (FromRecords.fillRow names m i record) [] c
      = if c ∈ names then (GoMap.get m [] c).set i (GoMap.get record .nil c)
        else GoMap.get m [] c := by
  unfold FromRecords.fillRow
  induction names generalizing m with
  | nil => simp
  | cons a t ih =>
    rw [List.foldl_cons, ih, GoMap.get_set]
    by_cases h2 : a = c
    · subst h2
      by_cases h1 : a ∈ t <;> simp [h1]
    · have h3 : ¬ c = a := fun h => h2 h.symm
      by_cases h1 : c ∈ t <;> simp [h1, h2, h3]

theorem fillRow_keys (names : List String) (m : GoMap (List HostValue)) (i : Nat)
    (record : GoMap HostValue) (hsub : ∀ c ∈ names, c ∈ GoMap.keys m) :
    GoMap.keys (FromRecords.fillRow names m i record) = GoMap.keys m := by
  unfold FromRecords.fillRow
  induction names generalizing m with
  | nil => simp
  | cons a t ih =>
    have ha := hsub a (List.mem_cons_self a t)
    rw [List.foldl_cons, ih, GoMap.keys_set_of_mem m a _ ha]
    intro c hc
    rw [GoMap.keys_set_of_mem m a _ ha]
    exact hsub c (List.mem_cons_of_mem a hc)

theorem fill_keys (names : List String) (m : GoMap (List HostValue)) (i : Nat)
    (records : List (GoMap HostValue)) (hsub : ∀ c ∈ names, c ∈ GoMap.keys m) :
    GoMap.keys (FromRecords.fill names m i records) = GoMap.keys m := by
  induction records generalizing m i with
  | nil => rfl
  | cons r rest ih =>
    rw [FromRecords.fill, ih, fillRow_keys names m i r hsub]
    intro c hc
    rw [fillRow_keys names m i r hsub]
    exact hsub c hc

theorem fill_get (names : List String) (m : GoMap (List HostValue)) (i : Nat)
    (records : List (GoMap HostValue)) (c : String) (hc : c ∈ names)
    (hlen : (GoMap.get m [] c).length = i + records.length) :
    GoMap.get (FromRecords.fill names m i records) [] c
      = (GoMap.get m [] c).take i ++ records.map (fun r => GoMap.get r .nil c) := by
  induction records generalizing m i with
  | nil =>
    simp only [FromRecords.fill, List.map_nil, List.append_nil]
    rw [List.take_of_length_le]
    simpa using hlen.le
  | cons r rest ih =>
    have hi : i < (GoMap.get m [] c).length := by
      rw [hlen]; simp
    rw [FromRecords.fill, ih]
    · rw [fillRow_get, if_pos hc, take_succ_set _ _ _ hi]
      simp
    · rw [fillRow_get, if_pos hc, List.length_set, hlen]
      simp only [List.length_cons]
      omega

theorem columns_keys (names : List String) (records : List (GoMap HostValue))
    (hnd : names.Nodup) : GoMap.keys (FromRecords.columns names records) = names := by
  unfold FromRecords.columns
  rw [fill_keys, initColumns_keys _ _ hnd]
  intro c hc
  rw [initColumns_keys _ _ hnd]
  exact hc

theorem columns_get (names : List String) (records : List (GoMap HostValue)) (c : String)
    (hc : c ∈ names) :
    GoMap.get (FromRecords.columns names records) [] c
      = records.map (fun r => GoMap.get r .nil c) := by
  unfold FromRecords.columns
  rw [fill_get _ _ _ _ _ hc]
  · simp
  · rw [initColumns_get _ _ _ hc]
    simp

/-! ## The two loops of `FromColumns` -/

theorem GoMap.get_of_mem {V : Type} (m : GoMap V) (hwf : GoMap.WF m) (zero : V) (k : String)
    (v : V) (h : (k, v) ∈ m) : GoMap.get m zero k = v := by
  induction m with
  | nil => simp at h
  | cons e rest ih =>
    obtain ⟨k0, v0⟩ := e
    have hwf' := List.nodup_cons.1 hwf
    rcases List.mem_cons.1 h with h | h
    · cases h
      simp [GoMap.get]
    · have hk : k ∈ GoMap.keys rest := List.mem_map_of_mem Prod.fst h
      have h0 : ¬ k0 = k := fun h1 => hwf'.1 (h1 ▸ hk)
      simp only [GoMap.get, h0, if_false]
      exact ih hwf'.2 h

theorem verify_ok (l : GoMap (List HostValue)) (n rowCount : Nat) (names : List String)
    (hlen : ∀ e ∈ l, e.2.length = n) (hrc : rowCount = 0 ∨ rowCount = n) :
    ∃ rc, FromColumns.verify l rowCount names = .ok (rc, names ++ GoMap.keys l) := by
  induction l generalizing rowCount names with
  | nil => exact ⟨rowCount, by simp [FromColumns.verify, GoMap.keys]⟩
  | cons e rest ih =>
    obtain ⟨k, vs⟩ := e
    have hvs : vs.length = n := hlen (k, vs) (List.mem_cons_self _ _)
    have hrest : ∀ e ∈ rest, e.2.length = n := fun e he => hlen e (List.mem_cons_of_mem _ he)
    by_cases h0 : rowCount = 0
    · obtain ⟨rc, hrc'⟩ := ih vs.length (names ++ [k]) hrest (Or.inr hvs)
      exact ⟨rc, by simp [FromColumns.verify, h0, hrc', GoMap.keys]⟩
    · have hn : rowCount = n := hrc.resolve_left h0
      obtain ⟨rc, hrc'⟩ := ih rowCount (names ++ [k]) hrest (Or.inr hn)
      exact ⟨rc, by simp [FromColumns.verify, h0, hvs, hn.symm, hrc', GoMap.keys]⟩

theorem buildColumns_ok (m : GoMap (List HostValue)) (names : List String)
    (hne : ∀ c ∈ names, GoMap.get m [] c ≠ []) :
    FromColumns.buildColumns m names
      = .ok (names.map (fun c =>
          { name := makeRawStr c, values := (GoMap.get m [] c).map makeColumnValue,
            len := (GoMap.get m [] c).length })) := by
  induction names with
  | nil => rfl
  | cons c rest ih =>
    have h1 : GoMap.get m [] c ≠ [] := hne c (List.mem_cons_self _ _)
    have h2 := ih (fun c hc => hne c (List.mem_cons_of_mem _ hc))
    simp [FromColumns.buildColumns, h1, h2]

theorem args_ok (m : GoMap (List HostValue)) (names : List String) (hnames : names ≠ [])
    (hne : ∀ c ∈ names, GoMap.get m [] c ≠ []) :
    FromColumns.args names m
      = .ok { columns := names.map (fun c =>
                { name := makeRawStr c, values := (GoMap.get m [] c).map makeColumnValue,
                  len := (GoMap.get m [] c).length }),
              column_count := names.length } := by
  simp [FromColumns.args, buildColumns_ok m names hne, hnames]

theorem FromColumns_of_verify_ok (columns : GoMap (List HostValue)) (rc : Nat)
    (names : List String) (hne : columns ≠ [])
    (hv : FromColumns.verify columns 0 [] = .ok (rc, names)) :
    FromColumns columns =
      { handle := { handle := 0, context_type := 0 },
        operations := [{ opcode := OpFromMemory, args := FromColumns.args names }],
        err := none } := by
  simp [FromColumns, hne, hv]

/-! ## The payload of `FromRecords` -/

theorem FromRecords_payload_eq (rangeOrder : GoMap (List HostValue) → GoMap (List HostValue))
    (hσ : ∀ m, List.Perm (rangeOrder m) m) (first : GoMap HostValue)
    (rest : List (GoMap HostValue)) (hwf : GoMap.WF first) (hK : first ≠ []) :
    FromRecords.payload rangeOrder (first :: rest)
      = some (.ok
          { columns := (GoMap.keys (rangeOrder
              (FromRecords.columns (GoMap.keys first) (first :: rest)))).map
                (recordColumn (first :: rest)),
            column_count := first.length }) := by
  set cols := FromRecords.columns (GoMap.keys first) (first :: rest) with hcols
  have hkeys : GoMap.keys cols = GoMap.keys first := columns_keys _ _ hwf
  have hcwf : GoMap.WF cols := by
    unfold GoMap.WF; rw [hkeys]; exact hwf
  have hperm := hσ cols
  have hkperm : List.Perm (GoMap.keys (rangeOrder cols)) (GoMap.keys first) := by
    rw [← hkeys]; exact hperm.map Prod.fst
  have hfk : GoMap.keys first ≠ [] := by
    simpa [GoMap.keys] using hK
  have hne : rangeOrder cols ≠ [] := by
    intro h
    rw [h] at hkperm
    exact hfk (List.Perm.eq_nil hkperm.symm)
  have hget : ∀ c ∈ GoMap.keys first,
      GoMap.get (rangeOrder cols) [] c
        = (first :: rest).map (fun r => GoMap.get r .nil c) := by
    intro c hc
    rw [← GoMap.get_perm hperm.symm hcwf, hcols, columns_get _ _ _ hc]
  have hlen : ∀ e ∈ rangeOrder cols, e.2.length = (first :: rest).length := by
    intro e he
    obtain ⟨k, vs⟩ := e
    have hmem : (k, vs) ∈ cols := hperm.mem_iff.1 he
    have hk : k ∈ GoMap.keys first := by
      rw [← hkeys]; exact List.mem_map_of_mem Prod.fst hmem
    have h1 := GoMap.get_of_mem cols hcwf [] k vs hmem
    have h2 := columns_get (GoMap.keys first) (first :: rest) k hk
    rw [← hcols, h1] at h2
    simp [h2]
  obtain ⟨rc, hv⟩ := verify_ok (rangeOrder cols) _ 0 [] hlen (Or.inl rfl)
  rw [List.nil_append] at hv
  have hfc := FromColumns_of_verify_ok (rangeOrder cols) rc _ hne hv
  have hkne : GoMap.keys (rangeOrder cols) ≠ [] := by
    simpa [GoMap.keys] using hne
  have hargs := args_ok (rangeOrder cols) (GoMap.keys (rangeOrder cols)) hkne (by
    intro c hc
    rw [hget c (hkperm.mem_iff.1 hc)]
    simp)
  have hlenk : (GoMap.keys (rangeOrder cols)).length = first.length := by
    rw [hkperm.length_eq]; simp [GoMap.keys]
  have hmap : (GoMap.keys (rangeOrder cols)).map (fun c =>
        ({ name := makeRawStr c, values := (GoMap.get (rangeOrder cols) [] c).map makeColumnValue,
           len := (GoMap.get (rangeOrder cols) [] c).length } : ColumnData))
      = (GoMap.keys (rangeOrder cols)).map (recordColumn (first :: rest)) := by
    apply List.map_congr_left
    intro c hc
    rw [hget c (hkperm.mem_iff.1 hc)]
    simp [recordColumn]
  have hfl : (GoMap.keys first).length ≠ 0 := by
    simpa using hfk
  simp only [FromRecords.payload, FromRecords, hfl, if_false, ← hcols, hfc, DataFrame.payloads,
    List.map_cons, List.map_nil, List.head?_cons, hargs, hmap, hlenk]

/-! ## Auxiliary facts -/

theorem toInt64_of_isInt64 (v : Int) (h : IsInt64 v) : toInt64 v = v := by
  unfold IsInt64 at h
  unfold toInt64
  omega

theorem isInt64_of_isInt32 (v : Int) (h : IsInt32 v) : IsInt64 v := by
  unfold IsInt32 at h
  unfold IsInt64
  omega

theorem makeRawStr_injective (a b : String) (h : makeRawStr a = makeRawStr b) : a = b := by
  have := congrArg RawStr.data h
  simpa [makeRawStr] using this

theorem GoMap.get_of_not_mem {V : Type} (m : GoMap V) (zero : V) (k : String)
    (h : k ∉ GoMap.keys m) : GoMap.get m zero k = zero := by
  induction m with
  | nil => rfl
  | cons e rest ih =>
    obtain ⟨k0, v0⟩ := e
    simp only [GoMap.keys, List.map_cons, List.mem_cons, not_or] at h
    have h0 : ¬ k0 = k := fun h1 => h.1 h1.symm
    simp only [GoMap.get, h0, if_false]
    exact ih (by simpa [GoMap.keys] using h.2)

/-! ## The text of the length-mismatch error determines its two numbers -/

theorem digitChar_value (k : Nat) (h : k < 10) : (Nat.digitChar k).toNat - 48 = k := by
  interval_cases k <;> decide

theorem digitChar_ne_space (k : Nat) (h : k < 10) : Nat.digitChar k ≠ ' ' := by
  interval_cases k <;> decide

theorem decimalValue_toDigitsCore (fuel n : Nat) (ds : List Char) (h : n < fuel) :
    decimalValue 0 (Nat.toDigitsCore 10 fuel n ds) = decimalValue n ds := by
  induction fuel generalizing n ds with
  | zero => omega
  | succ fuel ih =>
    unfold Nat.toDigitsCore
    have hd := digitChar_value (n % 10) (Nat.mod_lt _ (by decide))
    by_cases h0 : n / 10 = 0
    · simp only [h0, if_true]
      have hn : n % 10 = n := by omega
      rw [hn] at hd
      simp [decimalValue, hn, hd]
    · simp only [h0, if_false]
      rw [ih (n / 10) _ (by omega)]
      have : 10 * (n / 10) + n % 10 = n := by omega
      simp [decimalValue, hd, this]

theorem space_not_mem_toDigitsCore (fuel n : Nat) (ds : List Char) (h : ' ' ∉ ds) :
    ' ' ∉ Nat.toDigitsCore 10 fuel n ds := by
  induction fuel generalizing n ds with
  | zero => simpa [Nat.toDigitsCore] using h
  | succ fuel ih =>
    unfold Nat.toDigitsCore
    have hd := digitChar_ne_space (n % 10) (Nat.mod_lt _ (by decide))
    have h2 : ' ' ∉ Nat.digitChar (n % 10) :: ds := by
      simp only [List.mem_cons, not_or]
      exact ⟨fun e => hd e.symm, h⟩
    by_cases h0 : n / 10 = 0
    · simpa only [h0, if_true] using h2
    · simp only [h0, if_false]
      exact ih _ _ h2

theorem repr_data_injective (a b : Nat) (h : (Nat.repr a).data = (Nat.repr b).data) : a = b := by
  have ha := decimalValue_toDigitsCore (a + 1) a [] (by omega)
  have hb := decimalValue_toDigitsCore (b + 1) b [] (by omega)
  simp only [Nat.repr, Nat.toDigits, List.asString] at h
  rw [h] at ha
  rw [ha] at hb
  simpa [decimalValue] using hb

theorem space_not_mem_repr (a : Nat) : ' ' ∉ (Nat.repr a).data := by
  simp only [Nat.repr, Nat.toDigits, List.asString]
  exact space_not_mem_toDigitsCore _ _ [] (by simp)

theorem append_cons_split {α : Type} (x : α) (l1 l2 r1 r2 : List α) (h1 : x ∉ l1) (h2 : x ∉ l2)
    (h : l1 ++ x :: r1 = l2 ++ x :: r2) : l1 = l2 ∧ r1 = r2 := by
  induction l1 generalizing l2 with
  | nil =>
    cases l2 with
    | nil => simpa using h
    | cons b t =>
      simp only [List.nil_append, List.cons_append, List.cons.injEq] at h
      exact absurd (h.1 ▸ List.mem_cons_self _ _) h2
  | cons a t ih =>
    cases l2 with
    | nil =>
      simp only [List.nil_append, List.cons_append, List.cons.injEq] at h
      exact absurd (h.1 ▸ List.mem_cons_self _ _) h1
    | cons b t2 =>
      simp only [List.cons_append, List.cons.injEq] at h
      have := ih t2 (fun hm => h1 (List.mem_cons_of_mem _ hm))
        (fun hm => h2 (List.mem_cons_of_mem _ hm)) h.2
      exact ⟨by rw [h.1, this.1], this.2⟩

theorem mismatchMessage_injective (a b c d : Nat)
    (h : mismatchMessage a b = mismatchMessage c d) : a = c ∧ b = d := by
  have h1 : (Nat.repr a).data ++ ' ' :: ('a' :: 'n' :: 'd' :: ' ' :: ((Nat.repr b).data ++ [')']))
      = (Nat.repr c).data ++ ' ' :: ('a' :: 'n' :: 'd' :: ' ' :: ((Nat.repr d).data ++ [')'])) := by
    have h0 := String.ext_iff.1 h
    simpa [mismatchMessage, toString] using h0
  have h2 := append_cons_split ' ' _ _ _ _ (space_not_mem_repr a) (space_not_mem_repr c) h1
  have h3 : (Nat.repr b).data = (Nat.repr d).data := by
    have := h2.2
    simp only [List.cons.injEq, true_and] at this
    exact List.append_cancel_right this
  exact ⟨repr_data_injective a c h2.1, repr_data_injective b d h3⟩

theorem mismatchMessage_ne_empty_columns (a b : Nat) :
    "FromColumns: columns cannot be empty" ≠ mismatchMessage a b := by
  intro h
  have h0 := String.ext_iff.1 h
  simp [mismatchMessage] at h0

/-! ## The verdict of the verification loop -/

theorem verify_error (l : GoMap (List HostValue)) (rowCount : Nat) (names : List String)
    (a b : Nat) (h : FromColumns.verify l rowCount names = .error (a, b)) :
    a ≠ b ∧ a ≠ 0 ∧ (a = rowCount ∨ ∃ e ∈ l, e.2.length = a) ∧ ∃ e ∈ l, e.2.length = b := by
  induction l generalizing rowCount names with
  | nil => simp [FromColumns.verify] at h
  | cons e rest ih =>
    obtain ⟨k, vs⟩ := e
    by_cases h0 : rowCount = 0
    · simp only [FromColumns.verify, h0, if_true] at h
      obtain ⟨h1, h2, h3, e2, he2, hb⟩ := ih _ _ h
      refine ⟨h1, h2, Or.inr ?_, e2, List.mem_cons_of_mem _ he2, hb⟩
      rcases h3 with h3 | ⟨e1, he1, ha⟩
      · exact ⟨(k, vs), List.mem_cons_self _ _, h3.symm⟩
      · exact ⟨e1, List.mem_cons_of_mem _ he1, ha⟩
    · by_cases h1 : vs.length = rowCount
      · simp only [FromColumns.verify, h0, if_false, h1, ne_eq, not_true_eq_false] at h
        obtain ⟨h2, h3, h4, e2, he2, hb⟩ := ih _ _ h
        refine ⟨h2, h3, ?_, e2, List.mem_cons_of_mem _ he2, hb⟩
        rcases h4 with h4 | ⟨e1, he1, ha⟩
        · exact Or.inl h4
        · exact Or.inr ⟨e1, List.mem_cons_of_mem _ he1, ha⟩
      · simp only [FromColumns.verify, h0, if_false, h1, ne_eq, not_false_eq_true, if_true,
          Except.error.injEq, Prod.mk.injEq] at h
        obtain ⟨ha, hb⟩ := h
        subst ha
        subst hb
        exact ⟨fun h2 => h1 h2.symm, h0, Or.inl rfl, (k, vs), List.mem_cons_self _ _, rfl⟩

theorem verify_pos_error (l : GoMap (List HostValue)) (rowCount : Nat) (names : List String)
    (hrc : rowCount ≠ 0) (hne : ¬ ∀ e ∈ l, e.2.length = rowCount) :
    ∃ b, FromColumns.verify l rowCount names = .error (rowCount, b) := by
  induction l generalizing names with
  | nil => exact absurd (fun e he => by simp at he) hne
  | cons e rest ih =>
    obtain ⟨k, vs⟩ := e
    by_cases h1 : vs.length = rowCount
    · have hrest : ¬ ∀ e ∈ rest, e.2.length = rowCount := by
        intro hall
        apply hne
        intro e he
        rcases List.mem_cons.1 he with he | he
        · rw [he]; exact h1
        · exact hall e he
      obtain ⟨b, hb⟩ := ih (names ++ [k]) hrest
      exact ⟨b, by simp [FromColumns.verify, hrc, h1, hb]⟩
    · exact ⟨vs.length, by simp [FromColumns.verify, hrc, h1]⟩

theorem FromColumns_of_verify_error (columns : GoMap (List HostValue)) (a b : Nat)
    (hne : columns ≠ []) (hv : FromColumns.verify columns 0 [] = .error (a, b)) :
    (FromColumns columns).err = some (mismatchMessage a b) ∧
    (FromColumns columns).operations = [] := by
  simp [FromColumns, hne, hv, DataFrame.appendErrOpf, DataFrame.appendErrOp, NewDataFrame,
    sprintf_mismatch]

/-! ## The payload of `FromColumns` when no column is empty -/

theorem FromColumns_payload_nonempty (columns : GoMap (List HostValue)) (n : Nat)
    (hwf : GoMap.WF columns) (hne : columns ≠ []) (hn : n ≠ 0)
    (hlen : ∀ e ∈ columns, e.2.length = n) :
    (FromColumns columns).payloads columns
      = [.ok { columns := columns.map (fun e =>
                 { name := makeRawStr e.1, values := e.2.map makeColumnValue, len := e.2.length }),
               column_count := columns.length }] := by
  obtain ⟨rc, hv⟩ := verify_ok columns n 0 [] hlen (Or.inl rfl)
  rw [List.nil_append] at hv
  rw [FromColumns_of_verify_ok columns rc _ hne hv]
  have hget : ∀ e ∈ columns, GoMap.get columns [] e.1 = e.2 := fun e he =>
    GoMap.get_of_mem columns hwf [] e.1 e.2 he
  have hkne : GoMap.keys columns ≠ [] := by simpa [GoMap.keys] using hne
  have hargs := args_ok columns (GoMap.keys columns) hkne (by
    intro c hc
    obtain ⟨e, he, rfl⟩ := List.mem_map.1 hc
    rw [hget e he]
    intro h0
    have := hlen e he
    rw [h0] at this
    exact hn this.symm)
  have hmap : (GoMap.keys columns).map (fun c =>
        ({ name := makeRawStr c, values := (GoMap.get columns [] c).map makeColumnValue,
           len := (GoMap.get columns [] c).length } : ColumnData))
      = columns.map (fun e =>
          { name := makeRawStr e.1, values := e.2.map makeColumnValue, len := e.2.length }) := by
    simp only [GoMap.keys, List.map_map]
    apply List.map_congr_left
    intro e he
    simp [hget e he]
  have hl : (GoMap.keys columns).length = columns.length := by simp [GoMap.keys]
  simp only [DataFrame.payloads, List.map_cons, List.map_nil, hargs, hmap, hl]

/-! ## The chain of `FromRecords` -/

theorem FromRecords_chain_eq (rangeOrder : GoMap (List HostValue) → GoMap (List HostValue))
    (hσ : ∀ m, List.Perm (rangeOrder m) m) (first : GoMap HostValue)
    (rest : List (GoMap HostValue)) (hwf : GoMap.WF first) (hK : first ≠ []) :
    ∃ names, FromRecords rangeOrder (first :: rest) =
      { handle := { handle := 0, context_type := 0 },
        operations := [{ opcode := OpFromMemory, args := FromColumns.args names }],
        err := none } := by
  set cols := FromRecords.columns (GoMap.keys first) (first :: rest) with hcols
  have hkeys : GoMap.keys cols = GoMap.keys first := columns_keys _ _ hwf
  have hcwf : GoMap.WF cols := by
    unfold GoMap.WF; rw [hkeys]; exact hwf
  have hperm := hσ cols
  have hkperm : List.Perm (GoMap.keys (rangeOrder cols)) (GoMap.keys first) := by
    rw [← hkeys]; exact hperm.map Prod.fst
  have hfk : GoMap.keys first ≠ [] := by
    simpa [GoMap.keys] using hK
  have hne : rangeOrder cols ≠ [] := by
    intro h
    rw [h] at hkperm
    exact hfk (List.Perm.eq_nil hkperm.symm)
  have hlen : ∀ e ∈ rangeOrder cols, e.2.length = (first :: rest).length := by
    intro e he
    obtain ⟨k, vs⟩ := e
    have hmem : (k, vs) ∈ cols := hperm.mem_iff.1 he
    have hk : k ∈ GoMap.keys first := by
      rw [← hkeys]; exact List.mem_map_of_mem Prod.fst hmem
    have h1 := GoMap.get_of_mem cols hcwf [] k vs hmem
    have h2 := columns_get (GoMap.keys first) (first :: rest) k hk
    rw [← hcols, h1] at h2
    simp [h2]
  obtain ⟨rc, hv⟩ := verify_ok (rangeOrder cols) _ 0 [] hlen (Or.inl rfl)
  have hfc := FromColumns_of_verify_ok (rangeOrder cols) rc _ hne hv
  have hfl : (GoMap.keys first).length ≠ 0 := by
    simpa using hfk
  refine ⟨[] ++ GoMap.keys (rangeOrder cols), ?_⟩
  simp only [FromRecords, hfl, if_false, ← hcols, hfc]

theorem DataFrame.call_of_err (df : DataFrame) (message : String) (h : df.err = some message)
    (c : BuilderCall) : df.call c = df := by
  cases c <;>
    simp [DataFrame.call, DataFrame.appendOp, DataFrame.appendErrOp, DataFrame.appendErrOpf, h]

/-! ## What the closure of an accepted chain reads -/

theorem verify_names (l : GoMap (List HostValue)) (rowCount : Nat) (names : List String)
    (rc : Nat) (ns : List String) (h : FromColumns.verify l rowCount names = .ok (rc, ns)) :
    ns = names ++ GoMap.keys l := by
  induction l generalizing rowCount names with
  | nil =>
    simp only [FromColumns.verify, Except.ok.injEq, Prod.mk.injEq] at h
    simp [GoMap.keys, h.2]
  | cons e rest ih =>
    obtain ⟨k, vs⟩ := e
    by_cases h0 : rowCount = 0
    · simp only [FromColumns.verify, h0, if_true] at h
      rw [ih _ _ h]
      simp [GoMap.keys]
    · by_cases h1 : vs.length = rowCount
      · simp only [FromColumns.verify, h0, if_false, h1, ne_eq, not_true_eq_false] at h
        rw [ih _ _ h]
        simp [GoMap.keys]
      · simp [FromColumns.verify, h0, h1] at h

theorem FromColumns_accepted_eq (columns : GoMap (List HostValue))
    (h : (FromColumns columns).err = none) :
    columns ≠ [] ∧
    FromColumns columns =
      { handle := { handle := 0, context_type := 0 },
        operations := [{ opcode := OpFromMemory, args := FromColumns.args (GoMap.keys columns) }],
        err := none } := by
  by_cases hne : columns = []
  · subst hne
    have h0 : (FromColumns []).err = some "FromColumns: columns cannot be empty" := rfl
    rw [h0] at h
    simp at h
  · refine ⟨hne, ?_⟩
    cases hv : FromColumns.verify columns 0 [] with
    | error r =>
      obtain ⟨a, b⟩ := r
      rw [(FromColumns_of_verify_error columns a b hne hv).1] at h
      simp at h
    | ok r =>
      obtain ⟨rc, ns⟩ := r
      have hns := verify_names columns 0 [] rc ns hv
      rw [List.nil_append] at hns
      rw [FromColumns_of_verify_ok columns rc ns hne hv, hns]

theorem buildColumns_congr (heap heap2 : GoMap (List HostValue)) (names : List String)
    (h : ∀ c ∈ names, GoMap.get heap2 [] c = GoMap.get heap [] c) :
    FromColumns.buildColumns heap2 names = FromColumns.buildColumns heap names := by
  induction names with
  | nil => rfl
  | cons c rest ih =>
    have h1 := h c (List.mem_cons_self _ _)
    have h2 := ih (fun c hc => h c (List.mem_cons_of_mem _ hc))
    simp only [FromColumns.buildColumns, h1, h2]

theorem args_congr (heap heap2 : GoMap (List HostValue)) (names : List String)
    (h : ∀ c ∈ names, GoMap.get heap2 [] c = GoMap.get heap [] c) :
    FromColumns.args names heap2 = FromColumns.args names heap := by
  simp only [FromColumns.args, buildColumns_congr heap heap2 names h]

/-! ## Claims -/

/-- C1 (the code departs from the claim): a column map with two columns of
different lengths, the empty one visited first, is accepted by `FromColumns`:
the chain has no deferred error and holds a FromMemory operation.  Visited in
the other order the same map is rejected with "got 1 and 0". -/
theorem FromColumns_accepts_unequal_lengths :
    (FromColumns [("a", []), ("b", [.int64 1])]).err = none ∧
    (FromColumns [("a", []), ("b", [.int64 1])]).hasFromMemory = true ∧
    (FromColumns [("b", [.int64 1]), ("a", [])]).err = some (mismatchMessage 1 0) := by
  decide

/-- C2: for a non-empty list of N records whose first record has K >= 1 keys,
the payload of `FromRecords` is built without a panic, has exactly K columns,
named by the keys of the first record, each key once, and every column has
length N; this for every visiting order of the maps involved. -/
theorem FromRecords_payload_shape
    (rangeOrder : GoMap (List HostValue) → GoMap (List HostValue))
    (hσ : ∀ m, List.Perm (rangeOrder m) m) (first : GoMap HostValue)
    (rest : List (GoMap HostValue)) (hwf : GoMap.WF first) (hK : 1 ≤ first.length) :
    ∃ p names, FromRecords.payload rangeOrder (first :: rest) = some (.ok p) ∧
      p.column_count = first.length ∧ p.columns.length = first.length ∧
      List.Perm names (GoMap.keys first) ∧ names.Nodup ∧
      p.columns.map (fun col => col.name) = names.map makeRawStr ∧
      ∀ col ∈ p.columns,
        col.len = (first :: rest).length ∧ col.values.length = (first :: rest).length := by
  have hne : first ≠ [] := by
    intro h; rw [h] at hK; simp at hK
  have hcols := columns_keys (GoMap.keys first) (first :: rest) hwf
  have hperm : List.Perm
      (GoMap.keys (rangeOrder (FromRecords.columns (GoMap.keys first) (first :: rest))))
      (GoMap.keys first) := by
    have h1 := (hσ (FromRecords.columns (GoMap.keys first) (first :: rest))).map Prod.fst
    have h2 : List.Perm (GoMap.keys (FromRecords.columns (GoMap.keys first) (first :: rest)))
        (GoMap.keys first) := by rw [hcols]
    exact h1.trans h2
  refine ⟨_, _, FromRecords_payload_eq rangeOrder hσ first rest hwf hne, rfl, ?_, hperm,
    hperm.nodup_iff.2 hwf, ?_, ?_⟩
  · simp only [List.length_map]
    rw [hperm.length_eq]; simp [GoMap.keys]
  · simp [recordColumn]
  · intro col hcol
    obtain ⟨c, _, rfl⟩ := List.mem_map.1 hcol
    simp [recordColumn]

/-- Witness of C2: two records, the second lacking a key of the first, the
map visited in reverse order. -/
theorem FromRecords_payload_shape_witness :
    GoMap.WF [("name", HostValue.string "Alice"), ("age", HostValue.int64 30)] ∧
    1 ≤ [("name", HostValue.string "Alice"), ("age", HostValue.int64 30)].length ∧
    ∃ p names, FromRecords.payload List.reverse
        [[("name", HostValue.string "Alice"), ("age", HostValue.int64 30)],
         [("name", HostValue.string "Bob")]] = some (.ok p) ∧
      p.column_count = 2 ∧ p.columns.length = 2 ∧
      List.Perm names ["name", "age"] ∧ names.Nodup ∧
      p.columns.map (fun col => col.name) = names.map makeRawStr ∧
      ∀ col ∈ p.columns, col.len = 2 ∧ col.values.length = 2 :=
  ⟨by decide, by decide,
    FromRecords_payload_shape List.reverse (fun m => List.reverse_perm m)
      [("name", HostValue.string "Alice"), ("age", HostValue.int64 30)]
      [[("name", HostValue.string "Bob")]] (by decide) (by decide)⟩

/-- C3: for a valid record list, every key c of the first record names
exactly one column of the payload, and for every row index i the i-th value
of that column is `makeColumnValue (records[i][c])`; a record that lacks c or
holds nil under c gives a Null at position i. -/
theorem FromRecords_payload_values
    (rangeOrder : GoMap (List HostValue) → GoMap (List HostValue))
    (hσ : ∀ m, List.Perm (rangeOrder m) m) (first : GoMap HostValue)
    (rest : List (GoMap HostValue)) (hwf : GoMap.WF first) (hK : 1 ≤ first.length) :
    ∃ p, FromRecords.payload rangeOrder (first :: rest) = some (.ok p) ∧
      ∀ c ∈ GoMap.keys first, ∃ col : ColumnData, col ∈ p.columns ∧ col.name = makeRawStr c ∧
        (∀ col2 ∈ p.columns, col2.name = makeRawStr c → col2 = col) ∧
        ∀ (i : Nat) (r : GoMap HostValue), (first :: rest)[i]? = some r →
          col.values[i]? = some (makeColumnValue (GoMap.get r .nil c)) ∧
          ((c ∉ GoMap.keys r ∨ GoMap.get r .nil c = .nil) →
            Option.map ColumnValue.value_type col.values[i]? = some 4) := by
  have hne : first ≠ [] := by
    intro h; rw [h] at hK; simp at hK
  have hcols := columns_keys (GoMap.keys first) (first :: rest) hwf
  have hperm : List.Perm
      (GoMap.keys (rangeOrder (FromRecords.columns (GoMap.keys first) (first :: rest))))
      (GoMap.keys first) := by
    have h1 := (hσ (FromRecords.columns (GoMap.keys first) (first :: rest))).map Prod.fst
    have h2 : List.Perm (GoMap.keys (FromRecords.columns (GoMap.keys first) (first :: rest)))
        (GoMap.keys first) := by rw [hcols]
    exact h1.trans h2
  refine ⟨_, FromRecords_payload_eq rangeOrder hσ first rest hwf hne, ?_⟩
  intro c hc
  refine ⟨recordColumn (first :: rest) c,
    List.mem_map.2 ⟨c, hperm.mem_iff.2 hc, rfl⟩, rfl, ?_, ?_⟩
  · intro col2 hcol2 hname
    obtain ⟨c2, _, rfl⟩ := List.mem_map.1 hcol2
    have : c2 = c := makeRawStr_injective c2 c hname
    rw [this]
  · intro i r hr
    have hval : (recordColumn (first :: rest) c).values[i]?
        = some (makeColumnValue (GoMap.get r .nil c)) := by
      simp only [recordColumn, List.getElem?_map, hr, Option.map_some']
    refine ⟨hval, ?_⟩
    intro hnull
    have hnil : GoMap.get r .nil c = .nil := by
      rcases hnull with h | h
      · exact GoMap.get_of_not_mem r .nil c h
      · exact h
    rw [hval, hnil]
    rfl

/-- Witness of C3: the same two records; under "age" the second row is Null. -/
theorem FromRecords_payload_values_witness :
    GoMap.WF [("name", HostValue.string "Alice"), ("age", HostValue.int64 30)] ∧
    1 ≤ [("name", HostValue.string "Alice"), ("age", HostValue.int64 30)].length ∧
    ∃ p, FromRecords.payload List.reverse
        [[("name", HostValue.string "Alice"), ("age", HostValue.int64 30)],
         [("name", HostValue.string "Bob")]] = some (.ok p) ∧
      ∀ c ∈ GoMap.keys [("name", HostValue.string "Alice"), ("age", HostValue.int64 30)],
        ∃ col : ColumnData, col ∈ p.columns ∧ col.name = makeRawStr c ∧
        (∀ col2 ∈ p.columns, col2.name = makeRawStr c → col2 = col) ∧
        ∀ (i : Nat) (r : GoMap HostValue), [[("name", HostValue.string "Alice"), ("age", HostValue.int64 30)],
            [("name", HostValue.string "Bob")]][i]? = some r →
          col.values[i]? = some (makeColumnValue (GoMap.get r .nil c)) ∧
          ((c ∉ GoMap.keys r ∨ GoMap.get r .nil c = .nil) →
            Option.map ColumnValue.value_type col.values[i]? = some 4) :=
  ⟨by decide, by decide,
    FromRecords_payload_values List.reverse (fun m => List.reverse_perm m)
      [("name", HostValue.string "Alice"), ("age", HostValue.int64 30)]
      [[("name", HostValue.string "Bob")]] (by decide) (by decide)⟩

/-- C4: `FromRecords` of an empty (or nil) list returns a chain with the
deferred error "FromRecords: records cannot be empty", no operation at all,
and so no FromMemory operation; no step of this path can panic. -/
theorem FromRecords_empty (rangeOrder : GoMap (List HostValue) → GoMap (List HostValue)) :
    (FromRecords rangeOrder []).err = some "FromRecords: records cannot be empty" ∧
    (FromRecords rangeOrder []).operations.length = 0 ∧
    (FromRecords rangeOrder []).hasFromMemory = false := by
  refine ⟨rfl, rfl, rfl⟩

/-- C5: when the first record has no keys, `FromRecords` returns a chain with
the deferred error "FromRecords: first record is empty" and no FromMemory
operation, whatever the later records are. -/
theorem FromRecords_first_empty (rangeOrder : GoMap (List HostValue) → GoMap (List HostValue))
    (rest : List (GoMap HostValue)) :
    (FromRecords rangeOrder ([] :: rest)).err = some "FromRecords: first record is empty" ∧
    (FromRecords rangeOrder ([] :: rest)).operations.length = 0 ∧
    (FromRecords rangeOrder ([] :: rest)).hasFromMemory = false := by
  refine ⟨rfl, rfl, rfl⟩

/-- C6: each canonical host value gets its own tag and carries its value
unchanged: an int64 gives tag 0 and `int_value = v`, a float64 tag 1 and
`float_value = v`, a string tag 2 and the raw string of `v`, a bool tag 3 and
`bool_value = v`. -/
theorem makeColumnValue_canonical (v : Int) (hv : IsInt64 v) (f : Nat) (s : String) (b : Bool) :
    ((makeColumnValue (.int64 v)).value_type = 0 ∧ (makeColumnValue (.int64 v)).int_value = v) ∧
    ((makeColumnValue (.float64 f)).value_type = 1 ∧
      (makeColumnValue (.float64 f)).float_value = f) ∧
    ((makeColumnValue (.string s)).value_type = 2 ∧
      (makeColumnValue (.string s)).string_value = makeRawStr s) ∧
    ((makeColumnValue (.bool b)).value_type = 3 ∧ (makeColumnValue (.bool b)).bool_value = b) :=
  ⟨⟨rfl, toInt64_of_isInt64 v hv⟩, ⟨rfl, rfl⟩, ⟨rfl, rfl⟩, ⟨rfl, rfl⟩⟩

/-- Witness of C6: the smallest int64, the bits of 1.5, a string and `true`. -/
theorem makeColumnValue_canonical_witness :
    IsInt64 (-9223372036854775808) ∧
    ((makeColumnValue (.int64 (-9223372036854775808))).value_type = 0 ∧
      (makeColumnValue (.int64 (-9223372036854775808))).int_value = -9223372036854775808) ∧
    ((makeColumnValue (.float64 4609434218613702656)).value_type = 1 ∧
      (makeColumnValue (.float64 4609434218613702656)).float_value = 4609434218613702656) ∧
    ((makeColumnValue (.string "Alice")).value_type = 2 ∧
      (makeColumnValue (.string "Alice")).string_value = makeRawStr "Alice") ∧
    ((makeColumnValue (.bool true)).value_type = 3 ∧
      (makeColumnValue (.bool true)).bool_value = true) :=
  ⟨by decide,
    makeColumnValue_canonical (-9223372036854775808) (by decide) 4609434218613702656 "Alice" true⟩

/-- C7: `makeColumnValue` is a total function into `ColumnValue` (it has no
error result); its tag is one of 0..4, and the tag is Null (4) exactly when
the value is nil or its dynamic type is none of int64, int, int32, float64,
float32, string, bool. -/
theorem makeColumnValue_total (value : HostValue) :
    (makeColumnValue value).value_type ∈ [0, 1, 2, 3, 4] ∧
    ((makeColumnValue value).value_type = 4 ↔
      (value = .nil ∨ ∃ t, value.dynType = some t ∧ t ∉ supportedTypes)) := by
  cases value <;> simp [makeColumnValue, HostValue.dynType, supportedTypes]

/-- C8: integer widening keeps the value: for a 32-bit integer x, and for a
machine int x (64 bits on amd64), `makeColumnValue x` equals
`makeColumnValue (int64 x)`, with the Int64 tag and `int_value = x`. -/
theorem makeColumnValue_widening (x : Int) :
    (IsInt32 x → makeColumnValue (.int32 x) = makeColumnValue (.int64 x) ∧
      (makeColumnValue (.int32 x)).value_type = 0 ∧ (makeColumnValue (.int32 x)).int_value = x) ∧
    (IsInt64 x → makeColumnValue (.int x) = makeColumnValue (.int64 x) ∧
      (makeColumnValue (.int x)).value_type = 0 ∧ (makeColumnValue (.int x)).int_value = x) :=
  ⟨fun h => ⟨rfl, rfl, toInt64_of_isInt64 x (isInt64_of_isInt32 x h)⟩,
   fun h => ⟨rfl, rfl, toInt64_of_isInt64 x h⟩⟩

/-- Witness of C8: the negative number -7, as an int32 and as an int. -/
theorem makeColumnValue_widening_witness :
    IsInt32 (-7) ∧ IsInt64 (-7) ∧
    (makeColumnValue (.int32 (-7)) = makeColumnValue (.int64 (-7)) ∧
      (makeColumnValue (.int32 (-7))).value_type = 0 ∧
      (makeColumnValue (.int32 (-7))).int_value = -7) ∧
    (makeColumnValue (.int (-7)) = makeColumnValue (.int64 (-7)) ∧
      (makeColumnValue (.int (-7))).value_type = 0 ∧
      (makeColumnValue (.int (-7))).int_value = -7) :=
  ⟨by decide, by decide, (makeColumnValue_widening (-7)).1 (by decide),
    (makeColumnValue_widening (-7)).2 (by decide)⟩

/-- C9: for a non-empty column map whose columns all have the same length,
`FromColumns` returns a chain with no deferred error whose operation list is
exactly one operation, of kind FromMemory, and whose engine handle is zero. -/
theorem FromColumns_equal_lengths (columns : GoMap (List HostValue)) (n : Nat)
    (hne : columns ≠ []) (hlen : ∀ e ∈ columns, e.2.length = n) :
    (FromColumns columns).err = none ∧
    (∃ op, (FromColumns columns).operations = [op] ∧ op.opcode = OpFromMemory) ∧
    (FromColumns columns).handle = { handle := 0, context_type := 0 } := by
  obtain ⟨rc, hv⟩ := verify_ok columns n 0 [] hlen (Or.inl rfl)
  rw [FromColumns_of_verify_ok columns rc _ hne hv]
  exact ⟨rfl, ⟨_, rfl, rfl⟩, rfl⟩

/-- Witness of C9: two columns of two rows. -/
theorem FromColumns_equal_lengths_witness :
    ([("name", [HostValue.string "Alice", HostValue.string "Bob"]),
      ("age", [HostValue.int64 30, HostValue.int64 25])] : GoMap (List HostValue)) ≠ [] ∧
    (∀ e ∈ ([("name", [HostValue.string "Alice", HostValue.string "Bob"]),
      ("age", [HostValue.int64 30, HostValue.int64 25])] : GoMap (List HostValue)),
      e.2.length = 2) ∧
    (FromColumns [("name", [HostValue.string "Alice", HostValue.string "Bob"]),
      ("age", [HostValue.int64 30, HostValue.int64 25])]).err = none ∧
    (∃ op, (FromColumns [("name", [HostValue.string "Alice", HostValue.string "Bob"]),
      ("age", [HostValue.int64 30, HostValue.int64 25])]).operations = [op] ∧
      op.opcode = OpFromMemory) ∧
    (FromColumns [("name", [HostValue.string "Alice", HostValue.string "Bob"]),
      ("age", [HostValue.int64 30, HostValue.int64 25])]).handle
        = { handle := 0, context_type := 0 } :=
  ⟨by decide, by decide,
    FromColumns_equal_lengths
      [("name", [HostValue.string "Alice", HostValue.string "Bob"]),
       ("age", [HostValue.int64 30, HostValue.int64 25])] 2 (by decide) (by decide)⟩

/-- C10 (the code departs from the claim): visiting columns of lengths 0, 2
and 3 in this order, `FromColumns` reports "got 2 and 3"; the first column
visited has length 0 and the first later column that differs from it has
length 2, so the first mismatch in visiting order, 0 and 2, is not the one
reported. -/
theorem FromColumns_reports_later_mismatch :
    (FromColumns [("a", []), ("b", [.int64 1, .int64 2]),
      ("c", [.int64 1, .int64 2, .int64 3])]).err = some (mismatchMessage 2 3) ∧
    (FromColumns [("a", []), ("b", [.int64 1, .int64 2]),
      ("c", [.int64 1, .int64 2, .int64 3])]).err ≠ some (mismatchMessage 0 2) := by
  decide

/-- C11: `FromColumns` of an empty (or nil) column map returns a chain whose
deferred error is "FromColumns: columns cannot be empty" and which has no
operation, so no FromMemory operation; the error is a field of the returned
chain, the call itself returns normally. -/
theorem FromColumns_empty :
    (FromColumns []).err = some "FromColumns: columns cannot be empty" ∧
    (FromColumns []).operations.length = 0 ∧
    (FromColumns []).hasFromMemory = false := by
  refine ⟨rfl, rfl, rfl⟩

/-- C12: once a chain carries a deferred error, any sequence of later builder
calls (appending an operation, recording another error) leaves the operation
list as it was and keeps that first error verbatim. -/
theorem deferred_error_is_kept (df : DataFrame) (message : String)
    (h : df.err = some message) (cs : List BuilderCall) :
    (df.calls cs).operations = df.operations ∧ (df.calls cs).err = some message := by
  have hcalls : df.calls cs = df := by
    unfold DataFrame.calls
    induction cs with
    | nil => rfl
    | cons c rest ih =>
      rw [List.foldl_cons, DataFrame.call_of_err df message h c]
      exact ih
  rw [hcalls]
  exact ⟨rfl, h⟩

/-- Witness of C12: the chain `FromColumns` returns for columns of lengths 1
and 0, followed by a Select operation and a later error. -/
theorem deferred_error_is_kept_witness :
    (FromColumns [("b", [.int64 1]), ("a", [])]).err = some (mismatchMessage 1 0) ∧
    (((FromColumns [("b", [.int64 1]), ("a", [])]).calls
        [.op { opcode := .select, args := fun _ => .error "" }, .fail "later error"]).operations
      = (FromColumns [("b", [.int64 1]), ("a", [])]).operations ∧
     ((FromColumns [("b", [.int64 1]), ("a", [])]).calls
        [.op { opcode := .select, args := fun _ => .error "" }, .fail "later error"]).err
      = some (mismatchMessage 1 0)) :=
  ⟨by decide,
    deferred_error_is_kept (FromColumns [("b", [.int64 1]), ("a", [])]) (mismatchMessage 1 0)
      (by decide) [.op { opcode := .select, args := fun _ => .error "" }, .fail "later error"]⟩

/-- C14 (the code departs from the claim): the map with the single column "a"
of length 0 is accepted by `FromColumns`, but building the payload stops at
`&cValues[0]`: there is no payload with one column named "a" of length 0. -/
theorem FromColumns_no_payload_for_empty_column :
    (FromColumns [("a", [])]).err = none ∧
    (FromColumns [("a", [])]).payloads [("a", [])]
      = [.error "index out of range [0] with length 0"] ∧
    ¬ ∃ p, (FromColumns [("a", [])]).payloads [("a", [])] = [.ok p] := by
  refine ⟨rfl, rfl, ?_⟩
  rintro ⟨p, hp⟩
  have h : (FromColumns [("a", [])]).payloads [("a", [])]
      = [.error "index out of range [0] with length 0"] := rfl
  rw [h] at hp
  simp at hp

/-- C15: a value made by `makeColumnValue` carries at most the payload of its
own tag: `int_value`, `float_value`, `string_value` and `bool_value` are zero
unless the tag is 0, 1, 2, 3 respectively; with the Null tag all four are zero. -/
theorem makeColumnValue_payload (value : HostValue) :
    ((makeColumnValue value).value_type ≠ 0 → (makeColumnValue value).int_value = 0) ∧
    ((makeColumnValue value).value_type ≠ 1 → (makeColumnValue value).float_value = 0) ∧
    ((makeColumnValue value).value_type ≠ 2 → (makeColumnValue value).string_value = {}) ∧
    ((makeColumnValue value).value_type ≠ 3 → (makeColumnValue value).bool_value = false) ∧
    ((makeColumnValue value).value_type = 4 →
      (makeColumnValue value).int_value = 0 ∧ (makeColumnValue value).float_value = 0 ∧
      (makeColumnValue value).string_value = {} ∧ (makeColumnValue value).bool_value = false) := by
  cases value <;> simp [makeColumnValue]

/-- C16 (the code departs from the claim): a map of two columns, both of
length 0, is accepted by `FromColumns` (no deferred error, one FromMemory
operation), and building its payload indexes `cValues[0]` out of range. -/
theorem FromColumns_payload_panics_on_empty_columns :
    (FromColumns [("id", []), ("name", [])]).err = none ∧
    (FromColumns [("id", []), ("name", [])]).hasFromMemory = true ∧
    (FromColumns [("id", []), ("name", [])]).payloads [("id", []), ("name", [])]
      = [.error "index out of range [0] with length 0"] := by
  refine ⟨rfl, rfl, rfl⟩

/-- C17: for a non-empty list of records whose first record has at least one
key, `FromRecords` returns a chain with no deferred error, holding the single
FromMemory operation, and building its payload succeeds (no index is out of
range); this for every visiting order of the maps involved. -/
theorem FromRecords_accepted
    (rangeOrder : GoMap (List HostValue) → GoMap (List HostValue))
    (hσ : ∀ m, List.Perm (rangeOrder m) m) (first : GoMap HostValue)
    (rest : List (GoMap HostValue)) (hwf : GoMap.WF first) (hK : 1 ≤ first.length) :
    (FromRecords rangeOrder (first :: rest)).err = none ∧
    (FromRecords rangeOrder (first :: rest)).operations.length = 1 ∧
    (FromRecords rangeOrder (first :: rest)).hasFromMemory = true ∧
    ∃ p, FromRecords.payload rangeOrder (first :: rest) = some (.ok p) := by
  have hne : first ≠ [] := by
    intro h; rw [h] at hK; simp at hK
  obtain ⟨names, hchain⟩ := FromRecords_chain_eq rangeOrder hσ first rest hwf hne
  refine ⟨?_, ?_, ?_, _, FromRecords_payload_eq rangeOrder hσ first rest hwf hne⟩
  · rw [hchain]
  · rw [hchain]; rfl
  · rw [hchain]; rfl

/-- Witness of C17: two records, the second with another key set, the map
visited in reverse order. -/
theorem FromRecords_accepted_witness :
    GoMap.WF [("name", HostValue.string "Alice"), ("age", HostValue.int64 30)] ∧
    1 ≤ [("name", HostValue.string "Alice"), ("age", HostValue.int64 30)].length ∧
    (FromRecords List.reverse
      [[("name", HostValue.string "Alice"), ("age", HostValue.int64 30)],
       [("city", HostValue.string "Oslo")]]).err = none ∧
    (FromRecords List.reverse
      [[("name", HostValue.string "Alice"), ("age", HostValue.int64 30)],
       [("city", HostValue.string "Oslo")]]).operations.length = 1 ∧
    (FromRecords List.reverse
      [[("name", HostValue.string "Alice"), ("age", HostValue.int64 30)],
       [("city", HostValue.string "Oslo")]]).hasFromMemory = true ∧
    ∃ p, FromRecords.payload List.reverse
      [[("name", HostValue.string "Alice"), ("age", HostValue.int64 30)],
       [("city", HostValue.string "Oslo")]] = some (.ok p) :=
  ⟨by decide, by decide,
    FromRecords_accepted List.reverse (fun m => List.reverse_perm m)
      [("name", HostValue.string "Alice"), ("age", HostValue.int64 30)]
      [[("city", HostValue.string "Oslo")]] (by decide) (by decide)⟩

/-- C18 (the code departs from the claim): the same map, with columns "x" of
length 0 and "y" of length 2, is accepted when "x" is visited first and
rejected with "got 2 and 0" when "y" is visited first. -/
theorem FromColumns_verdict_depends_on_order :
    List.Perm ([("x", []), ("y", [.nil, .nil])] : GoMap (List HostValue))
      [("y", [.nil, .nil]), ("x", [])] ∧
    (FromColumns [("x", []), ("y", [.nil, .nil])]).err = none ∧
    (FromColumns [("x", []), ("y", [.nil, .nil])]).hasFromMemory = true ∧
    (FromColumns [("y", [.nil, .nil]), ("x", [])]).err = some (mismatchMessage 2 0) ∧
    (FromColumns [("y", [.nil, .nil]), ("x", [])]).hasFromMemory = false := by
  refine ⟨List.Perm.swap _ _ _, ?_, ?_, ?_, ?_⟩ <;> decide

/-- C19: for a non-empty column map in which every column has at least one
element, `FromColumns` returns a deferred error if and only if the columns do
not all have the same length; this for every visiting order. -/
theorem FromColumns_error_iff (columns : GoMap (List HostValue)) (hne : columns ≠ [])
    (hpos : ∀ e ∈ columns, 1 ≤ e.2.length) :
    (FromColumns columns).err ≠ none ↔ ¬ ∃ n, ∀ e ∈ columns, e.2.length = n := by
  cases columns with
  | nil => exact absurd rfl hne
  | cons e rest =>
    obtain ⟨k, vs⟩ := e
    have hvs : vs.length ≠ 0 := by
      have := hpos (k, vs) (List.mem_cons_self _ _)
      simp only at this
      omega
    have hstep : FromColumns.verify ((k, vs) :: rest) 0 []
        = FromColumns.verify rest vs.length ([] ++ [k]) := by
      simp [FromColumns.verify]
    by_cases hall : ∀ e ∈ rest, e.2.length = vs.length
    · obtain ⟨rc, hrc⟩ := verify_ok rest vs.length vs.length ([] ++ [k]) hall (Or.inr rfl)
      rw [← hstep] at hrc
      rw [FromColumns_of_verify_ok _ rc _ hne hrc]
      constructor
      · intro h; exact absurd rfl h
      · intro h
        refine absurd ⟨vs.length, ?_⟩ h
        intro e he
        rcases List.mem_cons.1 he with he | he
        · rw [he]
        · exact hall e he
    · obtain ⟨b, hb⟩ := verify_pos_error rest vs.length ([] ++ [k]) hvs hall
      rw [← hstep] at hb
      have herr := (FromColumns_of_verify_error _ _ _ hne hb).1
      constructor
      · rintro - ⟨n, hn⟩
        apply hall
        intro e he
        rw [hn e (List.mem_cons_of_mem _ he), ← hn (k, vs) (List.mem_cons_self _ _)]
      · intro _
        rw [herr]
        simp

/-- Witness of C19: columns of lengths 3 and 2, for which the error is returned. -/
theorem FromColumns_error_iff_witness :
    ([("name", [HostValue.string "a", HostValue.string "b", HostValue.string "c"]),
      ("age", [HostValue.int64 1, HostValue.int64 2])] : GoMap (List HostValue)) ≠ [] ∧
    (∀ e ∈ ([("name", [HostValue.string "a", HostValue.string "b", HostValue.string "c"]),
      ("age", [HostValue.int64 1, HostValue.int64 2])] : GoMap (List HostValue)),
      1 ≤ e.2.length) ∧
    ((FromColumns [("name", [HostValue.string "a", HostValue.string "b", HostValue.string "c"]),
      ("age", [HostValue.int64 1, HostValue.int64 2])]).err ≠ none ↔
     ¬ ∃ n, ∀ e ∈ ([("name", [HostValue.string "a", HostValue.string "b", HostValue.string "c"]),
      ("age", [HostValue.int64 1, HostValue.int64 2])] : GoMap (List HostValue)),
      e.2.length = n) :=
  ⟨by decide, by decide,
    FromColumns_error_iff
      [("name", [HostValue.string "a", HostValue.string "b", HostValue.string "c"]),
       ("age", [HostValue.int64 1, HostValue.int64 2])] (by decide) (by decide)⟩

/-- C20: whenever the chain returned by `FromColumns` carries the
length-mismatch error "... (got a and b)", the numbers a and b differ, a is
not zero, and each of them is the length of some column of the map. -/
theorem FromColumns_mismatch_numbers (columns : GoMap (List HostValue)) (a b : Nat)
    (h : (FromColumns columns).err = some (mismatchMessage a b)) :
    a ≠ b ∧ a ≠ 0 ∧ (∃ e ∈ columns, e.2.length = a) ∧ ∃ e ∈ columns, e.2.length = b := by
  by_cases hne : columns = []
  · subst hne
    have h0 : (FromColumns []).err = some "FromColumns: columns cannot be empty" := rfl
    rw [h0] at h
    exact absurd (Option.some.inj h) (mismatchMessage_ne_empty_columns a b)
  · cases hv : FromColumns.verify columns 0 [] with
    | ok r =>
      obtain ⟨rc, names⟩ := r
      rw [FromColumns_of_verify_ok columns rc names hne hv] at h
      simp at h
    | error r =>
      obtain ⟨c, d⟩ := r
      rw [(FromColumns_of_verify_error columns c d hne hv).1] at h
      obtain ⟨hac, hbd⟩ := mismatchMessage_injective c d a b (Option.some.inj h)
      subst hac
      subst hbd
      obtain ⟨h1, h2, h3, h4⟩ := verify_error columns 0 [] c d hv
      refine ⟨h1, h2, ?_, h4⟩
      rcases h3 with h3 | h3
      · exact absurd h3 h2
      · exact h3

/-- Witness of C20: columns of lengths 1 and 0, the non-empty one visited first. -/
theorem FromColumns_mismatch_numbers_witness :
    (FromColumns [("b", [.int64 1]), ("a", [])]).err = some (mismatchMessage 1 0) ∧
    ((1 : Nat) ≠ 0 ∧ (1 : Nat) ≠ 0 ∧
      (∃ e ∈ ([("b", [.int64 1]), ("a", [])] : GoMap (List HostValue)), e.2.length = 1) ∧
      ∃ e ∈ ([("b", [.int64 1]), ("a", [])] : GoMap (List HostValue)), e.2.length = 0) :=
  ⟨by decide, FromColumns_mismatch_numbers [("b", [.int64 1]), ("a", [])] 1 0 (by decide)⟩

/-- C21 (counterexample): the map with the column "a" of length 2 is accepted;
if the caller then replaces "a" by a column of length 3, the payload built at
submission has a column of length 3, not the validated length 2, and if the
caller removes the key "a" no payload is built at all.  So the payload is not
determined by the contents the map had at the call. -/
theorem FromColumns_payload_follows_later_changes :
    (FromColumns [("a", [.int64 1, .int64 2])]).err = none ∧
    (FromColumns [("a", [.int64 1, .int64 2])]).payloads [("a", [.int64 1, .int64 2])]
      = [.ok { columns := [{ name := makeRawStr "a",
                             values := [makeColumnValue (.int64 1), makeColumnValue (.int64 2)],
                             len := 2 }],
               column_count := 1 }] ∧
    (FromColumns [("a", [.int64 1, .int64 2])]).payloads
        [("a", [.int64 1, .int64 2, .int64 3])]
      = [.ok { columns := [{ name := makeRawStr "a",
                             values := [makeColumnValue (.int64 1), makeColumnValue (.int64 2),
                               makeColumnValue (.int64 3)],
                             len := 3 }],
               column_count := 1 }] ∧
    (FromColumns [("a", [.int64 1, .int64 2])]).payloads []
      = [.error "index out of range [0] with length 0"] ∧
    (FromColumns [("a", [.int64 1, .int64 2])]).payloads [("a", [.int64 1, .int64 2, .int64 3])]
      ≠ (FromColumns [("a", [.int64 1, .int64 2])]).payloads [("a", [.int64 1, .int64 2])] := by
  have h1 : (FromColumns [("a", [.int64 1, .int64 2])]).payloads [("a", [.int64 1, .int64 2])]
      = [.ok { columns := [{ name := makeRawStr "a",
                             values := [makeColumnValue (.int64 1), makeColumnValue (.int64 2)],
                             len := 2 }],
               column_count := 1 }] := rfl
  have h2 : (FromColumns [("a", [.int64 1, .int64 2])]).payloads
        [("a", [.int64 1, .int64 2, .int64 3])]
      = [.ok { columns := [{ name := makeRawStr "a",
                             values := [makeColumnValue (.int64 1), makeColumnValue (.int64 2),
                               makeColumnValue (.int64 3)],
                             len := 3 }],
               column_count := 1 }] := rfl
  refine ⟨rfl, h1, h2, rfl, ?_⟩
  rw [h1, h2]
  simp

/-- C21 (amended): the payload built when an accepted chain is submitted
depends on the column names the map had when `FromColumns` was called and on
the values stored under those names when the payload is built.  (1) Two
states of the map that agree under the recorded names give the same result,
whatever else differs (keys added, recorded keys removed in both).  (2) When
every recorded name holds a non-empty column at that time, the payload has one
column per recorded name, in the recorded order, with the values and the
length found under that name at that time.  (3) When the map holds under every
recorded name the column it held at the call, and no column is empty, the
payload has one column per entry the map had at the call, with that entry's
values and length: the lengths validated are then the lengths marshalled. -/
theorem FromColumns_payload_reads_map_at_submission (columns : GoMap (List HostValue))
    (hacc : (FromColumns columns).err = none) :
    (∀ heap heap2 : GoMap (List HostValue),
      (∀ c ∈ GoMap.keys columns, GoMap.get heap2 [] c = GoMap.get heap [] c) →
      (FromColumns columns).payloads heap2 = (FromColumns columns).payloads heap) ∧
    (∀ heap : GoMap (List HostValue),
      (∀ c ∈ GoMap.keys columns, GoMap.get heap [] c ≠ []) →
      (FromColumns columns).payloads heap
        = [.ok { columns := (GoMap.keys columns).map (fun c =>
                   { name := makeRawStr c, values := (GoMap.get heap [] c).map makeColumnValue,
                     len := (GoMap.get heap [] c).length }),
                 column_count := columns.length }]) ∧
    (∀ heap : GoMap (List HostValue), GoMap.WF columns → (∀ e ∈ columns, e.2 ≠ []) →
      (∀ c ∈ GoMap.keys columns, GoMap.get heap [] c = GoMap.get columns [] c) →
      (FromColumns columns).payloads heap
        = [.ok { columns := columns.map (fun e =>
                   { name := makeRawStr e.1, values := e.2.map makeColumnValue,
                     len := e.2.length }),
                 column_count := columns.length }]) := by
  obtain ⟨hne, heq⟩ := FromColumns_accepted_eq columns hacc
  have hkne : GoMap.keys columns ≠ [] := by simpa [GoMap.keys] using hne
  have hl : (GoMap.keys columns).length = columns.length := by simp [GoMap.keys]
  have hsecond : ∀ heap : GoMap (List HostValue),
      (∀ c ∈ GoMap.keys columns, GoMap.get heap [] c ≠ []) →
      (FromColumns columns).payloads heap
        = [.ok { columns := (GoMap.keys columns).map (fun c =>
                   { name := makeRawStr c, values := (GoMap.get heap [] c).map makeColumnValue,
                     len := (GoMap.get heap [] c).length }),
                 column_count := columns.length }] := by
    intro heap hheap
    rw [heq]
    simp only [DataFrame.payloads, List.map_cons, List.map_nil,
      args_ok heap (GoMap.keys columns) hkne hheap, hl]
  refine ⟨?_, hsecond, ?_⟩
  · intro heap heap2 hagree
    rw [heq]
    simp only [DataFrame.payloads, List.map_cons, List.map_nil,
      args_congr heap heap2 (GoMap.keys columns) hagree]
  · intro heap hwf hnonempty hsame
    have hget : ∀ e ∈ columns, GoMap.get heap [] e.1 = e.2 := by
      intro e he
      rw [hsame e.1 (List.mem_map_of_mem Prod.fst he)]
      exact GoMap.get_of_mem columns hwf [] e.1 e.2 he
    have hheap : ∀ c ∈ GoMap.keys columns, GoMap.get heap [] c ≠ [] := by
      intro c hc
      obtain ⟨e, he, rfl⟩ := List.mem_map.1 hc
      rw [hget e he]
      exact hnonempty e he
    rw [hsecond heap hheap]
    have hmap : (GoMap.keys columns).map (fun c =>
          ({ name := makeRawStr c, values := (GoMap.get heap [] c).map makeColumnValue,
             len := (GoMap.get heap [] c).length } : ColumnData))
        = columns.map (fun e =>
            { name := makeRawStr e.1, values := e.2.map makeColumnValue, len := e.2.length }) := by
      simp only [GoMap.keys, List.map_map]
      apply List.map_congr_left
      intro e he
      simp [hget e he]
    rw [hmap]

/-- Witness of C21 (amended): the map is accepted with "a" of length 2.
(1) With "a" removed, a map that has gained "b" gives the same result as the
empty map.  (2) With "a" replaced by three values the payload has length 3.
(3) With "a" as it was and "b" added, the payload has the validated length 2. -/
theorem FromColumns_payload_reads_map_at_submission_witness :
    (FromColumns [("a", [HostValue.int64 1, HostValue.int64 2])]).err = none ∧
    (FromColumns [("a", [HostValue.int64 1, HostValue.int64 2])]).payloads
        [("b", [HostValue.nil])]
      = (FromColumns [("a", [HostValue.int64 1, HostValue.int64 2])]).payloads [] ∧
    (FromColumns [("a", [HostValue.int64 1, HostValue.int64 2])]).payloads
        [("a", [HostValue.int64 1, HostValue.int64 2, HostValue.int64 3])]
      = [.ok { columns := [{ name := makeRawStr "a",
                             values := [makeColumnValue (.int64 1), makeColumnValue (.int64 2),
                               makeColumnValue (.int64 3)],
                             len := 3 }],
               column_count := 1 }] ∧
    (FromColumns [("a", [HostValue.int64 1, HostValue.int64 2])]).payloads
        [("b", [HostValue.nil]), ("a", [HostValue.int64 1, HostValue.int64 2])]
      = [.ok { columns := [{ name := makeRawStr "a",
                             values := [makeColumnValue (.int64 1), makeColumnValue (.int64 2)],
                             len := 2 }],
               column_count := 1 }] :=
  ⟨by decide,
    (FromColumns_payload_reads_map_at_submission
      [("a", [HostValue.int64 1, HostValue.int64 2])] (by decide)).1
        [] [("b", [HostValue.nil])] (by decide),
    (FromColumns_payload_reads_map_at_submission
      [("a", [HostValue.int64 1, HostValue.int64 2])] (by decide)).2.1
        [("a", [HostValue.int64 1, HostValue.int64 2, HostValue.int64 3])] (by decide),
    (FromColumns_payload_reads_map_at_submission
      [("a", [HostValue.int64 1, HostValue.int64 2])] (by decide)).2.2
        [("b", [HostValue.nil]), ("a", [HostValue.int64 1, HostValue.int64 2])]
        (by decide) (by decide) (by decide)⟩

end Firn
